import Mathlib

/-!
Shallow embedding of the audio-extension program in
`src/audio_augmentation.py` and `src/extend_audio.py`.

Samples are modelled as rationals (`ℚ`) and signals as `List ℚ`.
Python `int()` truncation, Python floor division `//`, Python slicing
`xs[:n]` (including negative bounds) and the `numpy` primitives used by
the code (`tile`, `linspace`, `zeros`, slice multiplication, `np.max`
of absolute values) are given explicit executable models.  The external
`librosa.effects.time_stretch` primitive is passed in as a function
parameter `st : List ℚ → ℚ → List ℚ`; draws from `np.random.normal`
are modelled by an oracle stream `g : ℕ → ℚ` scaled by the requested
standard deviation.  Fallible code returns `Except String`.
-/

/-- Python `int()` applied to a real-valued expression: truncation toward zero. -/
def pyInt (x : ℚ) : ℤ := if 0 ≤ x then ⌊x⌋ else ⌈x⌉

/-- Python slicing `xs[:n]` where the bound `n` is a Python integer and may be
negative: `xs[:n]` with negative `n` keeps the elements before index
`len(xs) + n`. -/
def pyTake (xs : List ℚ) (n : ℤ) : List ℚ :=
  if 0 ≤ n then xs.take n.toNat else xs.take ((xs.length : ℤ) + n).toNat

/-- Model of `np.zeros(n)`. -/
def zeros (n : ℕ) : List ℚ := List.replicate n 0

/-- Model of `np.tile(xs, n)`: `n` whole concatenated copies of `xs`. -/
def tile (xs : List ℚ) : ℕ → List ℚ
  | 0 => []
  | n + 1 => xs ++ tile xs n

/-- Model of `np.linspace(a, b, n)`: `n` evenly spaced values from `a` to `b`
inclusive.  For `n = 1` the formula yields `[a]` because `0 / 0 = 0` in `ℚ`,
matching `np.linspace(a, b, 1) = [a]`. -/
def linspace (a b : ℚ) (n : ℕ) : List ℚ :=
  (List.range n).map (fun i : ℕ => a + (b - a) * (i : ℚ) / ((n : ℚ) - 1))

/-- Elementwise map that also sees the index, starting from offset `i`
(used to model `numpy` in-place slice operations on buffers). -/
def idxMap (f : ℕ → ℚ → ℚ) : ℕ → List ℚ → List ℚ
  | _, [] => []
  | i, x :: xs => f i x :: idxMap f (i + 1) xs

/-- Model of the `numpy` in-place slice multiplication
`buf[s : s + len(ramp)] *= ramp`. -/
def mulSlice (buf : List ℚ) (s : ℕ) (ramp : List ℚ) : List ℚ :=
  idxMap (fun j x => if s ≤ j ∧ j < s + ramp.length then x * ramp.getD (j - s) 1 else x) 0 buf

/-- Model of `np.max(np.abs(xs))` for nonempty `xs`, folded with initial
value 0 (which agrees with `numpy` on nonempty input because absolute
values are nonnegative). -/
def maxAbs (xs : List ℚ) : ℚ := xs.foldl (fun m a => max m |a|) 0

/-- Model of a draw `np.random.normal(0, sigma, n)`: `n` samples taken from
the oracle stream `g` scaled by the standard deviation `sigma`. -/
def randn (g : ℕ → ℚ) (sigma : ℚ) (n : ℕ) : List ℚ :=
  (List.range n).map (fun i => sigma * g i)

/-- Model of `add_white_noise` (identical in both source files):
`audio + np.random.normal(0, noise_level, len(audio))` with the draws
taken from the oracle stream `g`. -/
def add_white_noise (g : ℕ → ℚ) (audio : List ℚ) (noise_level : ℚ) : List ℚ :=
  idxMap (fun i a => a + noise_level * g i) 0 audio

/-- Model of `simple_reverb` in `src/extend_audio.py`: build a buffer of
length `len(audio) + delay` holding the signal, add `decay * audio` at
offset `delay` (`reverb[delay:] += audio * decay`), then truncate to the
original length. -/
def simple_reverb (audio : List ℚ) (sr : ℤ) (room_size : ℚ) : List ℚ :=
  let delay := (pyInt ((sr : ℚ) * (1/20) * room_size)).toNat
  let decay := (3/10) * room_size
  let buf := audio ++ zeros delay
  let buf2 := idxMap (fun i x => if delay ≤ i then x + decay * audio.getD (i - delay) 0 else x) 0 buf
  buf2.take audio.length

/-- Model of `normalize_audio` in `src/extend_audio.py`: scale so the peak
absolute value equals `target_peak` when the peak is positive, otherwise
return the input unchanged. -/
def normalize_audio (audio : List ℚ) (target_peak : ℚ) : List ℚ :=
  let max_val := maxAbs audio
  if 0 < max_val then audio.map (fun a => a / max_val * target_peak) else audio

/-- One iteration of the seam crossfade loop in
`extend_audio_method3_comprehensive` and in the comprehensive branch of
`AudioAugmentor.augment_audio`: at seam `k * L`, when
`k*L < len(buf)` and `k*L + F < len(buf)`, multiply the `F` samples
starting at the seam by `np.linspace(0, 1, F)`. -/
def crossfadeInStep (L F : ℕ) (buf : List ℚ) (k : ℕ) : List ℚ :=
  if k * L < buf.length ∧ k * L + F < buf.length then
    mulSlice buf (k * L) (linspace 0 1 F)
  else buf

/-- The seam crossfade loop `for i in range(1, num_repeats)` of
`extend_audio_method3_comprehensive` / `AudioAugmentor.augment_audio`
(fade-in only). -/
def crossfadeIn (L F : ℕ) (R : ℤ) (buf : List ℚ) : List ℚ :=
  (List.range' 1 (R - 1).toNat).foldl (crossfadeInStep L F) buf

/-- One iteration of the crossfade loop of `extend_audio_method1_repeat`:
at seam `k * L` (same guard as `crossfadeInStep`), first multiply the `F`
samples before the seam by `np.linspace(1, 0, F)` when
`start_idx - fade_length >= 0`, then multiply the `F` samples starting at
the seam by `np.linspace(0, 1, F)`. -/
def crossfadeInOutStep (L F : ℕ) (buf : List ℚ) (k : ℕ) : List ℚ :=
  if k * L < buf.length ∧ k * L + F < buf.length then
    let b1 := if F ≤ k * L then mulSlice buf (k * L - F) (linspace 1 0 F) else buf
    mulSlice b1 (k * L) (linspace 0 1 F)
  else buf

/-- The crossfade loop `for i in range(1, num_repeats)` of
`extend_audio_method1_repeat` (fade-out before each seam, fade-in after). -/
def crossfadeInOut (L F : ℕ) (R : ℤ) (buf : List ℚ) : List ℚ :=
  (List.range' 1 (R - 1).toNat).foldl (crossfadeInOutStep L F) buf

/-- Model of `extend_audio_method1_repeat` in `src/extend_audio.py`:
tile `ceil(target_length / len(audio))` copies, crossfade the seams
(fade-out and fade-in), truncate to `target_length`. -/
def extend_audio_method1_repeat (audio : List ℚ) (sr : ℤ) (target_duration : ℚ) : List ℚ :=
  let target_length := pyInt (target_duration * sr)
  let current_length := audio.length
  let num_repeats : ℤ := ⌈(target_length : ℚ) / (current_length : ℚ)⌉
  let extended := tile audio num_repeats.toNat
  let fade_length := (pyInt ((1/20) * (sr : ℚ))).toNat
  let faded := crossfadeInOut current_length fade_length num_repeats extended
  pyTake faded target_length

/-- Model of `extend_audio_method3_comprehensive` in `src/extend_audio.py`.
The random draw `stretch_rate ~ Uniform(0.75, 0.85)` is the parameter
`stretch_rate`; the white-noise draws come from the oracle stream `g`;
the `librosa` time stretcher is the parameter `st`. -/
def extend_audio_method3_comprehensive (st : List ℚ → ℚ → List ℚ) (stretch_rate : ℚ)
    (g : ℕ → ℚ) (audio : List ℚ) (sr : ℤ) (target_duration : ℚ) (noise_level : ℚ) :
    List ℚ :=
  let target_length := pyInt (target_duration * sr)
  let stretched := st audio stretch_rate
  let num_repeats : ℤ := ⌈(target_length : ℚ) / (stretched.length : ℚ)⌉
  let repeated := pyTake (tile stretched num_repeats.toNat) target_length
  let fade_length := (pyInt ((1/20) * (sr : ℚ))).toNat
  let faded := crossfadeIn stretched.length fade_length num_repeats repeated
  let noisy := add_white_noise g faded noise_level
  let extended := simple_reverb noisy sr (3/10)
  pyTake extended target_length

/-- Model of `extend_audio_method4_silence_padding` in `src/extend_audio.py`:
pad with `np.random.normal(0, 0.001, ·)` noise before and after the signal.
`np.random.normal` raises `ValueError` when asked for a negative number of
samples (which happens exactly when the input is longer than the target);
that failure is the `.error` branch.  The two draws come from the oracle
streams `g1` and `g2`. -/
def extend_audio_method4_silence_padding (g1 g2 : ℕ → ℚ) (audio : List ℚ)
    (sr : ℤ) (target_duration : ℚ) : Except String (List ℚ) :=
  let target_length := pyInt (target_duration * sr)
  let current_length : ℤ := audio.length
  let silence_needed := target_length - current_length
  let silence_before := Int.fdiv silence_needed 2
  let silence_after := silence_needed - silence_before
  if silence_before < 0 ∨ silence_after < 0 then
    .error "negative dimensions are not allowed"
  else
    .ok (randn g1 (1/1000) silence_before.toNat ++ audio ++
          randn g2 (1/1000) silence_after.toNat)

/-- Configuration state stored by `AudioAugmentor.__init__`. -/
structure AudioAugmentor where
  target_duration : ℚ
  sample_rate : ℤ

/-- Derived field `self.target_length = int(target_duration * sample_rate)`. -/
def AudioAugmentor.target_length (A : AudioAugmentor) : ℤ :=
  pyInt (A.target_duration * A.sample_rate)

/-- Model of `AudioAugmentor.add_reverb` in `src/audio_augmentation.py`
(the same computation as `simple_reverb`, using the configured sample rate). -/
def AudioAugmentor.add_reverb (A : AudioAugmentor) (audio : List ℚ) (room_size : ℚ) :
    List ℚ :=
  let delay := (pyInt ((A.sample_rate : ℚ) * (1/20) * room_size)).toNat
  let decay := (3/10) * room_size
  let buf := audio ++ zeros delay
  let buf2 := idxMap (fun i x => if delay ≤ i then x + decay * audio.getD (i - delay) 0 else x) 0 buf
  buf2.take audio.length

/-- Model of `AudioAugmentor.extend_to_target_length` in
`src/audio_augmentation.py`.  The external time stretcher is `st`;
an unrecognized method raises `ValueError` (`.error`). -/
def AudioAugmentor.extend_to_target_length (A : AudioAugmentor)
    (st : List ℚ → ℚ → List ℚ) (audio : List ℚ) (method : String) :
    Except String (List ℚ) :=
  let current_length : ℤ := audio.length
  if A.target_length ≤ current_length then
    .ok (pyTake audio A.target_length)
  else if method = "stretch" then
    let rate : ℚ := (current_length : ℚ) / (A.target_length : ℚ)
    .ok (pyTake (st audio rate) A.target_length)
  else if method = "repeat" then
    let num_repeats : ℤ := ⌈(A.target_length : ℚ) / (current_length : ℚ)⌉
    .ok (pyTake (tile audio num_repeats.toNat) A.target_length)
  else if method = "stretch_and_repeat" then
    let stretched := st audio (7/10)
    if (stretched.length : ℤ) < A.target_length then
      let num_repeats : ℤ := ⌈(A.target_length : ℚ) / (stretched.length : ℚ)⌉
      .ok (pyTake (tile stretched num_repeats.toNat) A.target_length)
    else
      .ok (pyTake stretched A.target_length)
  else if method = "pad_silence" then
    let silence_needed : ℤ := A.target_length - current_length
    let silence_before := Int.fdiv silence_needed 2
    let silence_after := silence_needed - silence_before
    .ok (zeros silence_before.toNat ++ audio ++ zeros silence_after.toNat)
  else
    .error ("Unknown method: " ++ method)

/-- Final part of `AudioAugmentor.augment_audio` (lines 236-243): enforce the
target length (truncate or zero-pad at the end), then scale by
`0.95 / np.max(np.abs(extended))` with no zero guard.  When the peak is
zero (all-zero or empty buffer) `numpy` divides by zero and produces `NaN`
samples; that outcome is modelled by the `.error` branch. -/
def AudioAugmentor.augment_finalize (A : AudioAugmentor) (extended : List ℚ) :
    Except String (List ℚ) :=
  let fixed :=
    if A.target_length < (extended.length : ℤ) then pyTake extended A.target_length
    else if (extended.length : ℤ) < A.target_length then
      extended ++ zeros (A.target_length - extended.length).toNat
    else extended
  let max_val := maxAbs fixed
  if max_val = 0 then .error "invalid value encountered in divide"
  else .ok (fixed.map (fun a => a / max_val * (19/20)))

/-- Model of `AudioAugmentor.augment_audio` in `src/audio_augmentation.py`. -/
def AudioAugmentor.augment_audio (A : AudioAugmentor) (st : List ℚ → ℚ → List ℚ)
    (g : ℕ → ℚ) (audio : List ℚ) (method : String) (noise_level : ℚ) :
    Except String (List ℚ) :=
  let dispatched :=
    if method = "simple" then
      A.extend_to_target_length st audio "repeat"
    else if method = "stretch" then
      A.extend_to_target_length st audio "stretch"
    else if method = "comprehensive" then
      let stretched := st audio (4/5)
      let num_repeats : ℤ := ⌈(A.target_length : ℚ) / (stretched.length : ℚ)⌉
      let repeated := pyTake (tile stretched num_repeats.toNat) A.target_length
      let fade_length := (pyInt ((1/20) * (A.sample_rate : ℚ))).toNat
      let faded := crossfadeIn stretched.length fade_length num_repeats repeated
      let noisy := add_white_noise g faded noise_level
      .ok (A.add_reverb noisy (3/10))
    else
      .error ("Unknown method: " ++ method)
  match dispatched with
  | .error e => .error e
  | .ok extended => A.augment_finalize extended

/-- Reference model of the reverb as the claim states it, with
`delay = round(0.05 * sampleRate * roomSize)`:
`out[i] = signal[i]` for `i < delay` and
`out[i] = signal[i] + decay * signal[i - delay]` for `delay ≤ i < len`. -/
def reverbModelRound (audio : List ℚ) (sr : ℤ) (room_size : ℚ) : List ℚ :=
  let delay := (round ((1/20 : ℚ) * (sr : ℚ) * room_size)).toNat
  let decay := (3/10) * room_size
  (List.range audio.length).map (fun i =>
    audio.getD i 0 + if delay ≤ i then decay * audio.getD (i - delay) 0 else 0)

/-- Reference model of the reverb with the code's truncating delay
`delay = int(sampleRate * 0.05 * roomSize)`; otherwise identical to
`reverbModelRound`. -/
def reverbModelInt (audio : List ℚ) (sr : ℤ) (room_size : ℚ) : List ℚ :=
  let delay := (pyInt ((sr : ℚ) * (1/20) * room_size)).toNat
  let decay := (3/10) * room_size
  (List.range audio.length).map (fun i =>
    audio.getD i 0 + if delay ≤ i then decay * audio.getD (i - delay) 0 else 0)

/-- Length of the payload of a successful result. -/
def okLength (e : Except String (List ℚ)) : Option ℕ :=
  match e with
  | .ok r => some r.length
  | .error _ => none

/-! ### Helper lemmas: evaluation of the Python/`numpy` primitives -/

theorem ceil_to_floor (x : ℚ) : ⌈x⌉ = -⌊-x⌋ := by
  rw [← Int.ceil_neg, neg_neg]

theorem pyInt_of_nonneg {x : ℚ} (h : 0 ≤ x) : pyInt x = ⌊x⌋ := by
  simp [pyInt, h]

theorem pyInt_nonneg {x : ℚ} (h : 0 ≤ x) : 0 ≤ pyInt x := by
  rw [pyInt_of_nonneg h]; exact Int.floor_nonneg.mpr h

theorem pyInt_nonpos {x : ℚ} (h : x ≤ 0) : pyInt x ≤ 0 := by
  unfold pyInt
  split
  · exact Int.floor_nonpos h
  · exact le_trans (Int.ceil_le.mpr (by simpa using h)) le_rfl

theorem pyTake_of_nonneg {n : ℤ} (h : 0 ≤ n) (xs : List ℚ) :
    pyTake xs n = xs.take n.toNat := by
  simp [pyTake, h]

theorem length_pyTake_of_nonneg {n : ℤ} (h : 0 ≤ n) (xs : List ℚ) :
    (pyTake xs n).length = min n.toNat xs.length := by
  rw [pyTake_of_nonneg h, List.length_take]

theorem idxMap_length (f : ℕ → ℚ → ℚ) : ∀ (i : ℕ) (xs : List ℚ),
    (idxMap f i xs).length = xs.length := by
  intro i xs
  induction xs generalizing i with
  | nil => rfl
  | cons x xs ih => simp [idxMap, ih]

theorem idxMap_getElem? (f : ℕ → ℚ → ℚ) : ∀ (i j : ℕ) (xs : List ℚ),
    (idxMap f i xs)[j]? = (xs[j]?).map (f (i + j)) := by
  intro i j xs
  induction xs generalizing i j with
  | nil => simp [idxMap]
  | cons x xs ih =>
    cases j with
    | zero => simp [idxMap]
    | succ j =>
      simp only [idxMap, List.getElem?_cons_succ, ih (i + 1) j]
      have h : i + 1 + j = i + (j + 1) := by omega
      rw [h]

theorem mulSlice_length (buf : List ℚ) (s : ℕ) (ramp : List ℚ) :
    (mulSlice buf s ramp).length = buf.length := idxMap_length _ _ _

theorem mulSlice_getElem? (buf : List ℚ) (s : ℕ) (ramp : List ℚ) (j : ℕ) :
    (mulSlice buf s ramp)[j]? =
      (buf[j]?).map (fun x =>
        if s ≤ j ∧ j < s + ramp.length then x * ramp.getD (j - s) 1 else x) := by
  unfold mulSlice
  rw [idxMap_getElem?]
  simp

theorem mulSlice_getElem?_outside (buf : List ℚ) (s : ℕ) (ramp : List ℚ) (j : ℕ)
    (h : ¬(s ≤ j ∧ j < s + ramp.length)) :
    (mulSlice buf s ramp)[j]? = buf[j]? := by
  rw [mulSlice_getElem?]
  cases buf[j]? with
  | none => rfl
  | some x => simp [h]

theorem mulSlice_getElem?_inside (buf : List ℚ) (s : ℕ) (ramp : List ℚ) (j : ℕ)
    (h : s ≤ j ∧ j < s + ramp.length) :
    (mulSlice buf s ramp)[j]? = (buf[j]?).map (fun x => x * ramp.getD (j - s) 1) := by
  rw [mulSlice_getElem?]
  cases buf[j]? with
  | none => rfl
  | some x => simp [h]

theorem tile_length (xs : List ℚ) : ∀ n : ℕ, (tile xs n).length = n * xs.length := by
  intro n
  induction n with
  | zero => simp [tile]
  | succ n ih => simp [tile, ih, Nat.succ_mul, Nat.add_comm]

theorem tile_getElem? (xs : List ℚ) (hxs : xs ≠ []) :
    ∀ (n j : ℕ), j < n * xs.length → (tile xs n)[j]? = xs[j % xs.length]? := by
  have hL : 0 < xs.length := List.length_pos.mpr hxs
  intro n
  induction n with
  | zero => intro j h; omega
  | succ n ih =>
    intro j h
    have hsucc : j < n * xs.length + xs.length := by
      rw [Nat.succ_mul] at h; exact h
    by_cases hj : j < xs.length
    · rw [show tile xs (n + 1) = xs ++ tile xs n from rfl, List.getElem?_append,
        if_pos hj, Nat.mod_eq_of_lt hj]
    · rw [show tile xs (n + 1) = xs ++ tile xs n from rfl, List.getElem?_append,
        if_neg hj, ih (j - xs.length) (by omega),
        Nat.mod_eq_sub_mod (le_of_not_lt hj)]

theorem linspace_length (a b : ℚ) (n : ℕ) : (linspace a b n).length = n := by
  unfold linspace
  rw [List.length_map, List.length_range]

theorem zeros_length (n : ℕ) : (zeros n).length = n := List.length_replicate n 0

theorem zeros_getElem? (n j : ℕ) (h : j < n) : (zeros n)[j]? = some 0 := by
  simp [zeros, List.getElem?_replicate, h]

theorem randn_length (g : ℕ → ℚ) (sigma : ℚ) (n : ℕ) : (randn g sigma n).length = n := by
  simp [randn]

theorem add_white_noise_length (g : ℕ → ℚ) (audio : List ℚ) (lvl : ℚ) :
    (add_white_noise g audio lvl).length = audio.length := idxMap_length _ _ _

theorem ceil_count_mul_ge {t : ℤ} (ht : 0 ≤ t) {c : ℕ} (hc : 0 < c) :
    t.toNat ≤ (⌈(t : ℚ) / (c : ℚ)⌉).toNat * c := by
  have hcq : (0 : ℚ) < (c : ℚ) := by exact_mod_cast hc
  have h1 : (t : ℚ) / (c : ℚ) ≤ (⌈(t : ℚ) / (c : ℚ)⌉ : ℚ) := Int.le_ceil _
  have h2 : (t : ℚ) ≤ (⌈(t : ℚ) / (c : ℚ)⌉ : ℚ) * (c : ℚ) := by
    calc (t : ℚ) = (t : ℚ) / (c : ℚ) * (c : ℚ) := by field_simp
    _ ≤ (⌈(t : ℚ) / (c : ℚ)⌉ : ℚ) * (c : ℚ) :=
        mul_le_mul_of_nonneg_right h1 (le_of_lt hcq)
  have h3 : t ≤ ⌈(t : ℚ) / (c : ℚ)⌉ * (c : ℤ) := by exact_mod_cast h2
  have h4 : 0 ≤ ⌈(t : ℚ) / (c : ℚ)⌉ :=
    Int.ceil_nonneg (div_nonneg (by exact_mod_cast ht) (le_of_lt hcq))
  have hm : ((⌈(t : ℚ) / (c : ℚ)⌉.toNat : ℤ)) = ⌈(t : ℚ) / (c : ℚ)⌉ :=
    Int.toNat_of_nonneg h4
  rw [← hm] at h3
  exact Int.toNat_le.mpr (by exact_mod_cast h3)

theorem ceil_nat_mul_self (k L : ℕ) (hL : 0 < L) :
    ⌈((k * L : ℕ) : ℚ) / ((L : ℕ) : ℚ)⌉ = (k : ℤ) := by
  have hLq : ((L : ℕ) : ℚ) ≠ 0 := by exact_mod_cast Nat.pos_iff_ne_zero.mp hL
  rw [show ((k * L : ℕ) : ℚ) = (k : ℚ) * (L : ℚ) by push_cast; ring,
    mul_div_assoc, div_self hLq, mul_one]
  exact Int.ceil_natCast k

theorem getD_eq_of_getElem? {xs : List ℚ} {i : ℕ} {v : ℚ} (h : xs[i]? = some v) :
    xs.getD i 0 = v := by
  simp [List.getD, h]

theorem maxAbs_fold (xs : List ℚ) : ∀ b : ℚ, 0 ≤ b →
    xs.foldl (fun m a => max m |a|) b = max b (maxAbs xs) := by
  induction xs with
  | nil => intro b hb; simp [maxAbs, max_eq_left hb]
  | cons x xs ih =>
    intro b hb
    have h1 : (0 : ℚ) ≤ max b |x| := le_trans hb (le_max_left _ _)
    have h2 : (0 : ℚ) ≤ max 0 |x| := le_max_left _ _
    have hL : (x :: xs).foldl (fun m a => max m |a|) b
        = max (max b |x|) (maxAbs xs) := by
      rw [List.foldl_cons]; exact ih (max b |x|) h1
    have hR : maxAbs (x :: xs) = max |x| (maxAbs xs) := by
      show (x :: xs).foldl (fun m a => max m |a|) 0 = _
      rw [List.foldl_cons, ih (max 0 |x|) h2, max_eq_right (abs_nonneg x)]
    rw [hL, hR, max_assoc]

theorem maxAbs_cons (x : ℚ) (xs : List ℚ) : maxAbs (x :: xs) = max |x| (maxAbs xs) := by
  show (x :: xs).foldl (fun m a => max m |a|) 0 = _
  rw [List.foldl_cons, maxAbs_fold xs (max 0 |x|) (le_max_left _ _),
    max_eq_right (abs_nonneg x)]

theorem maxAbs_nonneg (xs : List ℚ) : 0 ≤ maxAbs xs := by
  cases xs with
  | nil => exact le_refl 0
  | cons x xs =>
    rw [maxAbs_cons]
    exact le_trans (abs_nonneg x) (le_max_left _ _)

theorem maxAbs_map_mul (c : ℚ) (hc : 0 ≤ c) (xs : List ℚ) :
    maxAbs (xs.map (fun a => a * c)) = maxAbs xs * c := by
  induction xs with
  | nil => simp [maxAbs]
  | cons x xs ih =>
    rw [List.map_cons, maxAbs_cons, maxAbs_cons, ih, abs_mul, abs_of_nonneg hc,
      max_mul_of_nonneg _ _ hc]

theorem maxAbs_of_all_zero {xs : List ℚ} (h : ∀ a ∈ xs, a = 0) : maxAbs xs = 0 := by
  induction xs with
  | nil => rfl
  | cons x xs ih =>
    rw [maxAbs_cons, h x (List.mem_cons_self x xs),
      ih (fun a ha => h a (List.mem_cons_of_mem _ ha))]
    simp

theorem normalize_audio_of_not_pos {xs : List ℚ} (p : ℚ) (h : ¬ 0 < maxAbs xs) :
    normalize_audio xs p = xs := by
  simp [normalize_audio, h]

theorem normalize_audio_of_pos {xs : List ℚ} (p : ℚ) (h : 0 < maxAbs xs) :
    normalize_audio xs p = xs.map (fun a => a / maxAbs xs * p) := by
  simp [normalize_audio, h]

theorem normalize_audio_peak (xs : List ℚ) (p : ℚ) (hp : 0 ≤ p) (h : 0 < maxAbs xs) :
    maxAbs (normalize_audio xs p) = p := by
  rw [normalize_audio_of_pos p h]
  have hfg : (fun a : ℚ => a / maxAbs xs * p) = (fun a : ℚ => a * (p / maxAbs xs)) := by
    funext a; ring
  rw [hfg, maxAbs_map_mul _ (div_nonneg hp (maxAbs_nonneg xs)), mul_comm,
    div_mul_cancel₀ p (ne_of_gt h)]

theorem simple_reverb_eq_add_reverb (A : AudioAugmentor) (audio : List ℚ) (room : ℚ) :
    A.add_reverb audio room = simple_reverb audio A.sample_rate room := rfl

theorem simple_reverb_eq_model (audio : List ℚ) (sr : ℤ) (room : ℚ) :
    simple_reverb audio sr room = reverbModelInt audio sr room := by
  apply List.ext_getElem?
  intro i
  unfold simple_reverb reverbModelInt
  simp only []
  rw [List.getElem?_take, idxMap_getElem?, List.getElem?_map]
  by_cases hi : i < audio.length
  · rw [if_pos hi, List.getElem?_append, if_pos hi, List.getElem?_range hi]
    cases hx : audio[i]? with
    | none => exact absurd (List.getElem?_eq_none_iff.mp hx) (by omega)
    | some v =>
      simp only [Option.map_some', Nat.zero_add, getD_eq_of_getElem? hx]
      by_cases hd : (pyInt ((sr : ℚ) * (1/20) * room)).toNat ≤ i
      · rw [if_pos hd, if_pos hd]
      · rw [if_neg hd, if_neg hd, add_zero]
  · rw [if_neg hi, List.getElem?_eq_none (by simpa [List.length_range] using hi)]
    rfl

theorem simple_reverb_length (audio : List ℚ) (sr : ℤ) (room : ℚ) :
    (simple_reverb audio sr room).length = audio.length := by
  rw [simple_reverb_eq_model]
  unfold reverbModelInt
  simp

theorem crossfadeInStep_length (L F : ℕ) (buf : List ℚ) (k : ℕ) :
    (crossfadeInStep L F buf k).length = buf.length := by
  unfold crossfadeInStep
  split
  · exact mulSlice_length _ _ _
  · rfl

theorem crossfadeInOutStep_length (L F : ℕ) (buf : List ℚ) (k : ℕ) :
    (crossfadeInOutStep L F buf k).length = buf.length := by
  unfold crossfadeInOutStep
  split
  · rw [mulSlice_length]
    split
    · exact mulSlice_length _ _ _
    · rfl
  · rfl

theorem foldl_length_invariant (step : List ℚ → ℕ → List ℚ)
    (hstep : ∀ b k, (step b k).length = b.length) :
    ∀ (ks : List ℕ) (buf : List ℚ), (ks.foldl step buf).length = buf.length := by
  intro ks
  induction ks with
  | nil => intro buf; rfl
  | cons a tl ih => intro buf; rw [List.foldl_cons, ih, hstep]

theorem crossfadeIn_length (L F : ℕ) (R : ℤ) (buf : List ℚ) :
    (crossfadeIn L F R buf).length = buf.length :=
  foldl_length_invariant _ (crossfadeInStep_length L F) _ buf

theorem crossfadeInOut_length (L F : ℕ) (R : ℤ) (buf : List ℚ) :
    (crossfadeInOut L F R buf).length = buf.length :=
  foldl_length_invariant _ (crossfadeInOutStep_length L F) _ buf

theorem crossfadeInStep_getElem?_outside (L F : ℕ) (buf : List ℚ) (k j : ℕ)
    (h : ¬(k * L ≤ j ∧ j < k * L + F)) :
    (crossfadeInStep L F buf k)[j]? = buf[j]? := by
  unfold crossfadeInStep
  split
  · exact mulSlice_getElem?_outside _ _ _ _ (by simpa [linspace_length] using h)
  · rfl

theorem crossfadeInOutStep_getElem?_outside (L F : ℕ) (buf : List ℚ) (k j : ℕ)
    (h : ¬(k * L ≤ j + F ∧ j < k * L + F)) :
    (crossfadeInOutStep L F buf k)[j]? = buf[j]? := by
  unfold crossfadeInOutStep
  split
  · rw [mulSlice_getElem?_outside _ _ _ _ (by simp only [linspace_length]; omega)]
    split
    · next hf =>
      exact mulSlice_getElem?_outside _ _ _ _ (by simp only [linspace_length]; omega)
    · rfl
  · rfl

theorem crossfadeInStep_getElem?_inside (L F : ℕ) (buf : List ℚ) (k j : ℕ)
    (hw : k * L ≤ j ∧ j < k * L + F) (hlen : k * L + F < buf.length) :
    (crossfadeInStep L F buf k)[j]? =
      (buf[j]?).map (fun x => x * (linspace 0 1 F).getD (j - k * L) 1) := by
  unfold crossfadeInStep
  rw [if_pos ⟨by omega, hlen⟩]
  exact mulSlice_getElem?_inside _ _ _ _ (by simpa [linspace_length] using hw)

theorem foldl_crossfadeInStep_outside (L F : ℕ) :
    ∀ (ks : List ℕ) (buf : List ℚ) (j : ℕ),
    (∀ k ∈ ks, ¬(k * L ≤ j ∧ j < k * L + F)) →
    (ks.foldl (crossfadeInStep L F) buf)[j]? = buf[j]? := by
  intro ks
  induction ks with
  | nil => intro buf j _; rfl
  | cons a tl ih =>
    intro buf j h
    rw [List.foldl_cons, ih _ j (fun k hk => h k (List.mem_cons_of_mem _ hk)),
      crossfadeInStep_getElem?_outside L F buf a j (h a (List.mem_cons_self a tl))]

theorem foldl_crossfadeInOutStep_outside (L F : ℕ) :
    ∀ (ks : List ℕ) (buf : List ℚ) (j : ℕ),
    (∀ k ∈ ks, ¬(k * L ≤ j + F ∧ j < k * L + F)) →
    (ks.foldl (crossfadeInOutStep L F) buf)[j]? = buf[j]? := by
  intro ks
  induction ks with
  | nil => intro buf j _; rfl
  | cons a tl ih =>
    intro buf j h
    rw [List.foldl_cons, ih _ j (fun k hk => h k (List.mem_cons_of_mem _ hk)),
      crossfadeInOutStep_getElem?_outside L F buf a j (h a (List.mem_cons_self a tl))]

theorem foldl_crossfadeInStep_inside (L F : ℕ) :
    ∀ (ks : List ℕ), ks.Nodup → ∀ (buf : List ℚ) (k j : ℕ),
    k ∈ ks → (k * L ≤ j ∧ j < k * L + F) →
    (∀ q ∈ ks, q ≠ k → ¬(q * L ≤ j ∧ j < q * L + F)) →
    k * L + F < buf.length →
    (ks.foldl (crossfadeInStep L F) buf)[j]? =
      (buf[j]?).map (fun x => x * (linspace 0 1 F).getD (j - k * L) 1) := by
  intro ks
  induction ks with
  | nil => intro _ buf k j hmem; exact absurd hmem (List.not_mem_nil k)
  | cons a tl ih =>
    intro hnd buf k j hmem hw hdisj hlen
    have hnd' := List.nodup_cons.mp hnd
    rw [List.foldl_cons]
    by_cases hak : a = k
    · subst hak
      rw [foldl_crossfadeInStep_outside L F tl (crossfadeInStep L F buf a) j
        (fun q hq => hdisj q (List.mem_cons_of_mem _ hq)
          (fun hqk => hnd'.1 (hqk ▸ hq)))]
      exact crossfadeInStep_getElem?_inside L F buf a j hw hlen
    · have htl : k ∈ tl :=
        (List.mem_cons.mp hmem).resolve_left (fun h => hak h.symm)
      rw [ih hnd'.2 (crossfadeInStep L F buf a) k j htl hw
        (fun q hq => hdisj q (List.mem_cons_of_mem _ hq))
        (by rw [crossfadeInStep_length]; exact hlen),
        crossfadeInStep_getElem?_outside L F buf a j
          (hdisj a (List.mem_cons_self a tl) hak)]

theorem mem_crossfade_range (R : ℤ) (k : ℕ) :
    k ∈ List.range' 1 (R - 1).toNat ↔ 1 ≤ k ∧ (k : ℤ) < R := by
  rw [List.mem_range'_1]
  omega

theorem windows_disjoint {L F q k j : ℕ} (hFL : F ≤ L) (hqk : q ≠ k)
    (h1 : q * L ≤ j ∧ j < q * L + F) (h2 : k * L ≤ j ∧ j < k * L + F) : False := by
  rcases hqk.lt_or_lt with hlt | hlt
  · have hle : (q + 1) * L ≤ k * L := Nat.mul_le_mul_right L hlt
    have : q * L + F ≤ k * L := by
      calc q * L + F ≤ q * L + L := by omega
      _ = (q + 1) * L := by ring
      _ ≤ k * L := hle
    omega
  · have hle : (k + 1) * L ≤ q * L := Nat.mul_le_mul_right L hlt
    have : k * L + F ≤ q * L := by
      calc k * L + F ≤ k * L + L := by omega
      _ = (k + 1) * L := by ring
      _ ≤ q * L := hle
    omega

theorem crossfadeIn_getElem?_outside (L F : ℕ) (R : ℤ) (buf : List ℚ) (j : ℕ)
    (h : ∀ k : ℕ, 1 ≤ k → (k : ℤ) < R → ¬(k * L ≤ j ∧ j < k * L + F)) :
    (crossfadeIn L F R buf)[j]? = buf[j]? :=
  foldl_crossfadeInStep_outside L F _ buf j
    (fun k hk => h k ((mem_crossfade_range R k).mp hk).1 ((mem_crossfade_range R k).mp hk).2)

theorem crossfadeInOut_getElem?_outside (L F : ℕ) (R : ℤ) (buf : List ℚ) (j : ℕ)
    (h : ∀ k : ℕ, 1 ≤ k → (k : ℤ) < R → ¬(k * L ≤ j + F ∧ j < k * L + F)) :
    (crossfadeInOut L F R buf)[j]? = buf[j]? :=
  foldl_crossfadeInOutStep_outside L F _ buf j
    (fun k hk => h k ((mem_crossfade_range R k).mp hk).1 ((mem_crossfade_range R k).mp hk).2)

theorem crossfadeIn_getElem?_inside (L F : ℕ) (R : ℤ) (buf : List ℚ) (k j : ℕ)
    (hFL : F ≤ L) (hk1 : 1 ≤ k) (hkR : (k : ℤ) < R)
    (hw : k * L ≤ j ∧ j < k * L + F) (hlen : k * L + F < buf.length) :
    (crossfadeIn L F R buf)[j]? =
      (buf[j]?).map (fun x => x * (linspace 0 1 F).getD (j - k * L) 1) := by
  apply foldl_crossfadeInStep_inside L F _ (List.nodup_range' 1 _ 1 Nat.one_pos) buf k j
    ((mem_crossfade_range R k).mpr ⟨hk1, hkR⟩) hw _ hlen
  intro q hq hqk hqw
  exact windows_disjoint hFL hqk hqw hw

theorem ceil_count_mul_ge' {t c : ℤ} (ht : 0 ≤ t) (hc : 0 < c) :
    t.toNat ≤ (⌈(t : ℚ) / (c : ℚ)⌉).toNat * c.toNat := by
  have hcq : (0 : ℚ) < (c : ℚ) := by exact_mod_cast hc
  have h1 : (t : ℚ) / (c : ℚ) ≤ (⌈(t : ℚ) / (c : ℚ)⌉ : ℚ) := Int.le_ceil _
  have h2 : (t : ℚ) ≤ (⌈(t : ℚ) / (c : ℚ)⌉ : ℚ) * (c : ℚ) := by
    calc (t : ℚ) = (t : ℚ) / (c : ℚ) * (c : ℚ) := by field_simp
    _ ≤ (⌈(t : ℚ) / (c : ℚ)⌉ : ℚ) * (c : ℚ) :=
        mul_le_mul_of_nonneg_right h1 (le_of_lt hcq)
  have h3 : t ≤ ⌈(t : ℚ) / (c : ℚ)⌉ * c := by exact_mod_cast h2
  have h4 : 0 ≤ ⌈(t : ℚ) / (c : ℚ)⌉ :=
    Int.ceil_nonneg (div_nonneg (by exact_mod_cast ht) (le_of_lt hcq))
  have hm : ((⌈(t : ℚ) / (c : ℚ)⌉.toNat : ℤ)) = ⌈(t : ℚ) / (c : ℚ)⌉ :=
    Int.toNat_of_nonneg h4
  have hc' : ((c.toNat : ℤ)) = c := Int.toNat_of_nonneg (le_of_lt hc)
  have key : t ≤ (((⌈(t : ℚ) / (c : ℚ)⌉.toNat * c.toNat : ℕ) : ℤ)) := by
    rw [Nat.cast_mul, hm, hc']; exact h3
  exact Int.toNat_le.mpr key

/-! ### Branch lemmas for `extend_to_target_length` and `augment_audio` -/

theorem extend_of_ge (A : AudioAugmentor) (st : List ℚ → ℚ → List ℚ)
    (audio : List ℚ) (method : String)
    (h : A.target_length ≤ (audio.length : ℤ)) :
    A.extend_to_target_length st audio method = .ok (pyTake audio A.target_length) := by
  simp only [AudioAugmentor.extend_to_target_length]
  rw [if_pos h]

theorem extend_of_lt_stretch (A : AudioAugmentor) (st : List ℚ → ℚ → List ℚ)
    (audio : List ℚ) (hlt : (audio.length : ℤ) < A.target_length) :
    A.extend_to_target_length st audio "stretch" =
      .ok (pyTake (st audio (((audio.length : ℤ) : ℚ) / ((A.target_length : ℤ) : ℚ)))
        A.target_length) := by
  simp only [AudioAugmentor.extend_to_target_length]
  rw [if_neg (not_le.mpr hlt), if_pos trivial]

theorem extend_of_lt_repeat (A : AudioAugmentor) (st : List ℚ → ℚ → List ℚ)
    (audio : List ℚ) (hlt : (audio.length : ℤ) < A.target_length) :
    A.extend_to_target_length st audio "repeat" =
      .ok (pyTake
        (tile audio (⌈((A.target_length : ℤ) : ℚ) / (((audio.length : ℤ) : ℚ))⌉).toNat)
        A.target_length) := by
  simp only [AudioAugmentor.extend_to_target_length]
  rw [if_neg (not_le.mpr hlt), if_neg (by decide), if_pos trivial]

theorem extend_of_lt_sar_short (A : AudioAugmentor) (st : List ℚ → ℚ → List ℚ)
    (audio : List ℚ) (hlt : (audio.length : ℤ) < A.target_length)
    (hshort : ((st audio (7/10)).length : ℤ) < A.target_length) :
    A.extend_to_target_length st audio "stretch_and_repeat" =
      .ok (pyTake
        (tile (st audio (7/10))
          (⌈((A.target_length : ℤ) : ℚ) / (((st audio (7/10)).length : ℕ) : ℚ)⌉).toNat)
        A.target_length) := by
  simp only [AudioAugmentor.extend_to_target_length]
  rw [if_neg (not_le.mpr hlt), if_neg (by decide), if_neg (by decide), if_pos trivial,
    if_pos hshort]

theorem extend_of_lt_sar_long (A : AudioAugmentor) (st : List ℚ → ℚ → List ℚ)
    (audio : List ℚ) (hlt : (audio.length : ℤ) < A.target_length)
    (hlong : ¬ ((st audio (7/10)).length : ℤ) < A.target_length) :
    A.extend_to_target_length st audio "stretch_and_repeat" =
      .ok (pyTake (st audio (7/10)) A.target_length) := by
  simp only [AudioAugmentor.extend_to_target_length]
  rw [if_neg (not_le.mpr hlt), if_neg (by decide), if_neg (by decide), if_pos trivial,
    if_neg hlong]

theorem extend_of_lt_pad (A : AudioAugmentor) (st : List ℚ → ℚ → List ℚ)
    (audio : List ℚ) (hlt : (audio.length : ℤ) < A.target_length) :
    A.extend_to_target_length st audio "pad_silence" =
      .ok (zeros (Int.fdiv (A.target_length - (audio.length : ℤ)) 2).toNat ++ audio ++
        zeros ((A.target_length - (audio.length : ℤ)) -
          Int.fdiv (A.target_length - (audio.length : ℤ)) 2).toNat) := by
  simp only [AudioAugmentor.extend_to_target_length]
  rw [if_neg (not_le.mpr hlt), if_neg (by decide), if_neg (by decide), if_neg (by decide),
    if_pos trivial]

theorem extend_of_lt_unknown (A : AudioAugmentor) (st : List ℚ → ℚ → List ℚ)
    (audio : List ℚ) (method : String) (hlt : (audio.length : ℤ) < A.target_length)
    (h1 : method ≠ "stretch") (h2 : method ≠ "repeat")
    (h3 : method ≠ "stretch_and_repeat") (h4 : method ≠ "pad_silence") :
    A.extend_to_target_length st audio method = .error ("Unknown method: " ++ method) := by
  simp only [AudioAugmentor.extend_to_target_length]
  rw [if_neg (not_le.mpr hlt), if_neg h1, if_neg h2, if_neg h3, if_neg h4]

theorem extend_error_imp_lt (A : AudioAugmentor) (st : List ℚ → ℚ → List ℚ)
    (audio : List ℚ) (method : String) (e : String)
    (h : A.extend_to_target_length st audio method = .error e) :
    (audio.length : ℤ) < A.target_length := by
  by_contra hge
  rw [extend_of_ge A st audio method (not_lt.mp hge)] at h
  exact Except.noConfusion h

theorem augment_audio_simple (A : AudioAugmentor) (st : List ℚ → ℚ → List ℚ)
    (g : ℕ → ℚ) (audio : List ℚ) (lvl : ℚ) :
    A.augment_audio st g audio "simple" lvl =
      match A.extend_to_target_length st audio "repeat" with
      | .error e => .error e
      | .ok extended => A.augment_finalize extended := by
  simp only [AudioAugmentor.augment_audio]
  rw [if_pos trivial]

theorem augment_audio_unknown (A : AudioAugmentor) (st : List ℚ → ℚ → List ℚ)
    (g : ℕ → ℚ) (audio : List ℚ) (method : String) (lvl : ℚ)
    (h1 : method ≠ "simple") (h2 : method ≠ "stretch") (h3 : method ≠ "comprehensive") :
    A.augment_audio st g audio method lvl = .error ("Unknown method: " ++ method) := by
  simp only [AudioAugmentor.augment_audio]
  rw [if_neg h1, if_neg h2, if_neg h3]

theorem fdiv_two_eq_ediv (n : ℤ) : Int.fdiv n 2 = n / 2 :=
  Int.fdiv_eq_ediv n (by norm_num)

/-! ### Claim theorems -/

/-- C9: peak normalization is idempotent: `normalizePeak(normalizePeak(x))
== normalizePeak(x)` at the default target peak 0.95, for every (nonempty)
signal `x`. -/
theorem C9_normalize_idempotent (x : List ℚ) (hx : x ≠ []) :
    normalize_audio (normalize_audio x (19/20)) (19/20) = normalize_audio x (19/20) := by
  by_cases h : 0 < maxAbs x
  · have hpk : maxAbs (normalize_audio x (19/20)) = 19/20 :=
      normalize_audio_peak x _ (by norm_num) h
    rw [normalize_audio_of_pos _ (by rw [hpk]; norm_num), hpk]
    have hfun : (fun a : ℚ => a / (19/20) * (19/20)) = id := by
      funext a
      exact div_mul_cancel₀ a (by norm_num)
    rw [hfun, List.map_id]
  · rw [normalize_audio_of_not_pos _ h, normalize_audio_of_not_pos _ h]

/-- Witness for C9 at the concrete signal `[1/2, -2]`. -/
theorem C9_normalize_idempotent_witness :
    (([1/2, -2] : List ℚ) ≠ []) ∧
    normalize_audio (normalize_audio [1/2, -2] (19/20)) (19/20) =
      normalize_audio [1/2, -2] (19/20) :=
  ⟨by simp, C9_normalize_idempotent [1/2, -2] (by simp)⟩

/-- C10: in `extend_to_target_length` the length check precedes the method
dispatch: an input of at least `target_length` samples is truncated and no
error is raised, whatever the method string; the unknown-method error can
only occur for inputs shorter than `target_length`. -/
theorem C10_truncation_before_method (A : AudioAugmentor)
    (st : List ℚ → ℚ → List ℚ) (audio : List ℚ) (method : String) :
    (A.target_length ≤ (audio.length : ℤ) →
      A.extend_to_target_length st audio method = .ok (pyTake audio A.target_length)) ∧
    (∀ e : String, A.extend_to_target_length st audio method = .error e →
      (audio.length : ℤ) < A.target_length) :=
  ⟨fun h => extend_of_ge A st audio method h,
   fun e h => extend_error_imp_lt A st audio method e h⟩

/-- Witness for C10: a three-sample input, target length 2 and an
unrecognized method string still truncates without error. -/
theorem C10_truncation_before_method_witness :
    AudioAugmentor.extend_to_target_length ⟨1, 2⟩ (fun xs _ => xs) [5, 6, 7] "bogus" =
      .ok (pyTake [5, 6, 7] (AudioAugmentor.target_length ⟨1, 2⟩)) :=
  (C10_truncation_before_method ⟨1, 2⟩ (fun xs _ => xs) [5, 6, 7] "bogus").1
    (by norm_num [AudioAugmentor.target_length, pyInt])

/-- C8 counterexample: `extend_audio_method4_silence_padding` on an input
longer than the target does not truncate; it fails (negative sampling
size for `np.random.normal`).  Here `len(audio) = 3 > 2 = target_length`. -/
theorem C8_method4_long_input_cex :
    extend_audio_method4_silence_padding (fun _ => 0) (fun _ => 0) [1, 1, 1] 2 1 =
      .error "negative dimensions are not allowed" ∧
    extend_audio_method4_silence_padding (fun _ => 0) (fun _ => 0) [1, 1, 1] 2 1 ≠
      .ok (pyTake [1, 1, 1] (pyInt ((1 : ℚ) * (2 : ℤ)))) := by
  have herr : extend_audio_method4_silence_padding (fun _ => 0) (fun _ => 0) [1, 1, 1] 2 1 =
      .error "negative dimensions are not allowed" := by
    have h1 : pyInt ((1 : ℚ) * ((2 : ℤ) : ℚ)) = 2 := by norm_num [pyInt]
    simp only [extend_audio_method4_silence_padding, h1]
    rw [if_pos]
    have h2 : (2 : ℤ) - (List.length [(1 : ℚ), 1, 1] : ℤ) = -1 := by simp
    rw [h2]
    exact Or.inl (by decide)
  exact ⟨herr, by rw [herr]; intro h; exact Except.noConfusion h⟩

/-- C8 (amended): every method of `extend_to_target_length` returns exactly
the first `target_length` samples when the input is at least that long;
`extend_audio_method4_silence_padding` does so when the input length equals
the target exactly, but fails with a negative-dimension error when the
input is strictly longer. -/
theorem C8_truncation :
    (∀ (A : AudioAugmentor) (st : List ℚ → ℚ → List ℚ) (audio : List ℚ) (method : String),
      A.target_length ≤ (audio.length : ℤ) →
      A.extend_to_target_length st audio method = .ok (pyTake audio A.target_length)) ∧
    (∀ (g1 g2 : ℕ → ℚ) (audio : List ℚ) (sr : ℤ) (td : ℚ),
      (audio.length : ℤ) = pyInt (td * sr) →
      extend_audio_method4_silence_padding g1 g2 audio sr td = .ok audio) ∧
    (∀ (g1 g2 : ℕ → ℚ) (audio : List ℚ) (sr : ℤ) (td : ℚ),
      pyInt (td * sr) < (audio.length : ℤ) →
      extend_audio_method4_silence_padding g1 g2 audio sr td =
        .error "negative dimensions are not allowed") := by
  refine ⟨fun A st audio method h => extend_of_ge A st audio method h, ?_, ?_⟩
  · intro g1 g2 audio sr td h
    simp only [extend_audio_method4_silence_padding, ← h]
    rw [sub_self, if_neg (by simp [Int.zero_fdiv])]
    simp [randn, Int.zero_fdiv]
  · intro g1 g2 audio sr td h
    simp only [extend_audio_method4_silence_padding]
    rw [if_pos]
    exact Or.inl (by rw [fdiv_two_eq_ediv]; omega)

/-- Witness for C8: truncation of a long input by `extend_to_target_length`
with the `pad_silence` method, and the exact-length no-op of
`extend_audio_method4_silence_padding`. -/
theorem C8_truncation_witness :
    AudioAugmentor.extend_to_target_length ⟨1, 2⟩ (fun xs _ => xs) [9, 9, 9] "pad_silence" =
      .ok (pyTake [9, 9, 9] (AudioAugmentor.target_length ⟨1, 2⟩)) ∧
    extend_audio_method4_silence_padding (fun _ => 0) (fun _ => 0) [4, 5] 2 1 =
      .ok [4, 5] :=
  ⟨C8_truncation.1 ⟨1, 2⟩ (fun xs _ => xs) [9, 9, 9] "pad_silence"
      (by norm_num [AudioAugmentor.target_length, pyInt]),
   C8_truncation.2.1 (fun _ => 0) (fun _ => 0) [4, 5] 2 1 (by norm_num [pyInt])⟩

/-- C6 counterexample: a non-positive `target_duration` (here `-1`) is not
rejected: `extend_to_target_length` returns normally (an empty slice)
instead of failing with `InvalidParameterError`. -/
theorem C6_no_validation_cex :
    ((-1 : ℚ) ≤ 0) ∧
    AudioAugmentor.extend_to_target_length ⟨-1, 22050⟩ (fun xs _ => xs) [1] "repeat" =
      .ok [] := by
  refine ⟨by norm_num, ?_⟩
  rw [extend_of_ge ⟨-1, 22050⟩ (fun xs _ => xs) [1] "repeat"
    (by norm_num [AudioAugmentor.target_length, pyInt, ceil_to_floor])]
  have ht : AudioAugmentor.target_length ⟨-1, 22050⟩ = -22050 := by
    norm_num [AudioAugmentor.target_length, pyInt, ceil_to_floor]
  rw [ht]
  norm_num [pyTake]

/-- C6 (amended): an unrecognized method fails with `ValueError` in both
`extend_to_target_length` (when the input is short enough to reach the
dispatch) and `augment_audio`; but a non-positive `target_duration` or
`sample_rate` is not validated anywhere: the strategies accept it and
return a (possibly empty) truncation instead of failing.  A non-positive
stretch rate is only rejected inside the external `librosa` primitive,
not by this code. -/
theorem C6_error_policy :
    (∀ (A : AudioAugmentor) (st : List ℚ → ℚ → List ℚ) (audio : List ℚ) (method : String),
      (audio.length : ℤ) < A.target_length →
      method ≠ "stretch" → method ≠ "repeat" → method ≠ "stretch_and_repeat" →
      method ≠ "pad_silence" →
      A.extend_to_target_length st audio method = .error ("Unknown method: " ++ method)) ∧
    (∀ (A : AudioAugmentor) (st : List ℚ → ℚ → List ℚ) (g : ℕ → ℚ)
      (audio : List ℚ) (method : String) (lvl : ℚ),
      method ≠ "simple" → method ≠ "stretch" → method ≠ "comprehensive" →
      A.augment_audio st g audio method lvl = .error ("Unknown method: " ++ method)) ∧
    (∀ (td : ℚ) (sr : ℤ) (st : List ℚ → ℚ → List ℚ) (audio : List ℚ) (method : String),
      td ≤ 0 → 0 ≤ sr →
      AudioAugmentor.extend_to_target_length ⟨td, sr⟩ st audio method =
        .ok (pyTake audio (AudioAugmentor.target_length ⟨td, sr⟩))) ∧
    (∀ (td : ℚ) (sr : ℤ) (st : List ℚ → ℚ → List ℚ) (audio : List ℚ) (method : String),
      sr ≤ 0 → 0 ≤ td →
      AudioAugmentor.extend_to_target_length ⟨td, sr⟩ st audio method =
        .ok (pyTake audio (AudioAugmentor.target_length ⟨td, sr⟩))) := by
  refine ⟨fun A st audio method h h1 h2 h3 h4 =>
      extend_of_lt_unknown A st audio method h h1 h2 h3 h4,
    fun A st g audio method lvl h1 h2 h3 =>
      augment_audio_unknown A st g audio method lvl h1 h2 h3, ?_, ?_⟩
  · intro td sr st audio method h1 h2
    apply extend_of_ge
    have hq : td * ((sr : ℤ) : ℚ) ≤ 0 :=
      mul_nonpos_iff.mpr (Or.inr ⟨h1, by exact_mod_cast h2⟩)
    have : AudioAugmentor.target_length ⟨td, sr⟩ ≤ 0 := pyInt_nonpos hq
    exact le_trans this (by positivity)
  · intro td sr st audio method h1 h2
    apply extend_of_ge
    have hq : td * ((sr : ℤ) : ℚ) ≤ 0 :=
      mul_nonpos_iff.mpr (Or.inl ⟨h2, by exact_mod_cast h1⟩)
    have : AudioAugmentor.target_length ⟨td, sr⟩ ≤ 0 := pyInt_nonpos hq
    exact le_trans this (by positivity)

/-- Witness for C6: the unknown-method errors, and acceptance of
non-positive configuration parameters. -/
theorem C6_error_policy_witness :
    AudioAugmentor.extend_to_target_length ⟨5, 1⟩ (fun xs _ => xs) [1] "bogus" =
      .error ("Unknown method: " ++ "bogus") ∧
    AudioAugmentor.augment_audio ⟨5, 1⟩ (fun xs _ => xs) (fun _ => 0) [1] "bogus" (1/200) =
      .error ("Unknown method: " ++ "bogus") ∧
    AudioAugmentor.extend_to_target_length ⟨-1, 2⟩ (fun xs _ => xs) [1] "repeat" =
      .ok (pyTake [1] (AudioAugmentor.target_length ⟨-1, 2⟩)) ∧
    AudioAugmentor.extend_to_target_length ⟨1, -2⟩ (fun xs _ => xs) [1] "repeat" =
      .ok (pyTake [1] (AudioAugmentor.target_length ⟨1, -2⟩)) :=
  ⟨C6_error_policy.1 ⟨5, 1⟩ (fun xs _ => xs) [1] "bogus"
      (by norm_num [AudioAugmentor.target_length, pyInt])
      (by decide) (by decide) (by decide) (by decide),
   C6_error_policy.2.1 ⟨5, 1⟩ (fun xs _ => xs) (fun _ => 0) [1] "bogus" (1/200)
      (by decide) (by decide) (by decide),
   C6_error_policy.2.2.1 (-1) 2 (fun xs _ => xs) [1] "repeat" (by norm_num) (by norm_num),
   C6_error_policy.2.2.2 1 (-2) (fun xs _ => xs) [1] "repeat" (by norm_num) (by norm_num)⟩

/-- C2: the final normalization of `augment_audio` has no zero guard:
on an all-zero input with `method='simple'` (where no noise is added),
the pipeline reaches `extended / np.max(np.abs(extended)) * 0.95` with a
zero peak and divides by zero (producing `NaN` in `numpy`, the `.error`
branch of the model), instead of returning the silent signal unchanged
as the claim requires. -/
theorem C2_augment_audio_zero_divide :
    AudioAugmentor.augment_audio ⟨5, 1⟩ (fun xs _ => xs) (fun _ => 0)
      [0, 0, 0] "simple" (1/200) = .error "invalid value encountered in divide" := by
  have ht : AudioAugmentor.target_length ⟨5, 1⟩ = 5 := by
    norm_num [AudioAugmentor.target_length, pyInt]
  have h1 : AudioAugmentor.extend_to_target_length ⟨5, 1⟩ (fun xs _ => xs)
      [0, 0, 0] "repeat" = .ok [0, 0, 0, 0, 0] := by
    rw [extend_of_lt_repeat ⟨5, 1⟩ (fun xs _ => xs) [0, 0, 0] (by rw [ht]; norm_num), ht]
    have hc : (⌈((5 : ℤ) : ℚ) / (((List.length [(0 : ℚ), 0, 0] : ℕ) : ℤ) : ℚ)⌉ : ℤ) = 2 := by
      norm_num [ceil_to_floor]
    rw [hc]
    rfl
  rw [augment_audio_simple, h1]
  simp only [AudioAugmentor.augment_finalize, ht]
  norm_num [maxAbs, pyTake]

/-- C4 counterexample: the claim computes the delay with `round`, the code
with truncating `int()`.  At `sampleRate = 30`, `roomSize = 1` the code's
delay is `int(1.5) = 1` while the claim's reference model uses
`round(1.5) = 2`, and the outputs differ on the signal `[1, 0]`. -/
theorem C4_round_delay_cex :
    simple_reverb [1, 0] 30 1 ≠ reverbModelRound [1, 0] 30 1 := by
  have h1 : simple_reverb [1, 0] 30 1 = [1, 3/10] := by
    rw [simple_reverb_eq_model]
    have hd : (pyInt (((30 : ℤ) : ℚ) * (1/20) * 1)).toNat = 1 := by
      norm_num [pyInt]
    simp only [reverbModelInt, hd]
    norm_num [List.range_succ, List.getD]
  have h2 : reverbModelRound [1, 0] 30 1 = [1, 0] := by
    have hd : ((round ((1/20 : ℚ) * ((30 : ℤ) : ℚ) * 1) : ℤ)).toNat = 2 := by
      have hr : (round ((1/20 : ℚ) * ((30 : ℤ) : ℚ) * 1) : ℤ) = 2 := by
        norm_num [round_eq]
      rw [hr]
      decide
    simp only [reverbModelRound, hd]
    norm_num [List.range_succ, List.getD]
  rw [h1, h2]
  intro h
  rw [List.cons.injEq, List.cons.injEq] at h
  norm_num at h

/-- C4 (amended): both reverb implementations equal the claim's reference
model with the delay computed as `int(sampleRate * 0.05 * roomSize)`
(truncation, as the code does) instead of `round`; the output length
always equals the input length. -/
theorem C4_reverb_model (audio : List ℚ) (sr : ℤ) (room : ℚ)
    (h0 : 0 ≤ room) (h1 : room ≤ 1) (A : AudioAugmentor) :
    simple_reverb audio sr room = reverbModelInt audio sr room ∧
    (simple_reverb audio sr room).length = audio.length ∧
    A.add_reverb audio room = reverbModelInt audio A.sample_rate room ∧
    (A.add_reverb audio room).length = audio.length :=
  ⟨simple_reverb_eq_model audio sr room, simple_reverb_length audio sr room,
   by rw [simple_reverb_eq_add_reverb]; exact simple_reverb_eq_model audio A.sample_rate room,
   by rw [simple_reverb_eq_add_reverb]; exact simple_reverb_length audio A.sample_rate room⟩

/-- Witness for C4 at `audio = [1, 0]`, `sampleRate = 30`, `roomSize = 1/2`. -/
theorem C4_reverb_model_witness :
    ((0 : ℚ) ≤ 1/2) ∧
    simple_reverb [1, 0] 30 (1/2) = reverbModelInt [1, 0] 30 (1/2) ∧
    (simple_reverb [1, 0] 30 (1/2)).length = 2 :=
  ⟨by norm_num,
   (C4_reverb_model [1, 0] 30 (1/2) (by norm_num) (by norm_num) ⟨1, 30⟩).1,
   ((C4_reverb_model [1, 0] 30 (1/2) (by norm_num) (by norm_num) ⟨1, 30⟩).2.1).trans rfl⟩

theorem pad_append_getElem?_mid (pre audio post : List ℚ) (i : ℕ) (hi : i < audio.length) :
    (pre ++ (audio ++ post))[pre.length + i]? = audio[i]? := by
  rw [List.getElem?_append, if_neg (by omega)]
  have h : pre.length + i - pre.length = i := by omega
  rw [h, List.getElem?_append, if_pos hi]

theorem pad_append_getElem?_zeros (b a : ℕ) (audio : List ℚ) (j : ℕ)
    (hj : j < b + (audio.length + a))
    (hout : j < b ∨ b + audio.length ≤ j) :
    (zeros b ++ (audio ++ zeros a))[j]? = some 0 := by
  rcases hout with hlt | hge
  · rw [List.getElem?_append, if_pos (by rw [zeros_length]; exact hlt)]
    exact zeros_getElem? b j hlt
  · rw [List.getElem?_append, if_neg (by rw [zeros_length]; omega), zeros_length,
      List.getElem?_append, if_neg (by omega)]
    exact zeros_getElem? a (j - b - audio.length) (by omega)

/-- C3 counterexample: `extend_audio_method4_silence_padding` pads with
Gaussian noise draws (`np.random.normal(0, 0.001, ·)`), not exact zeros:
with an oracle drawing the (perfectly plausible) value 1, the pad sample
at index 0 is `0.001`, not `0`. -/
theorem C3_method4_noise_cex :
    extend_audio_method4_silence_padding (fun _ => 1) (fun _ => 1) [5] 3 1 =
      .ok [1/1000, 5, 1/1000] ∧ ((1/1000 : ℚ) ≠ 0) := by
  constructor
  · have h1 : pyInt ((1 : ℚ) * ((3 : ℤ) : ℚ)) = 3 := by norm_num [pyInt]
    simp only [extend_audio_method4_silence_padding, h1]
    have h2 : Int.fdiv ((3 : ℤ) - (List.length [(5 : ℚ)] : ℤ)) 2 = 1 := by
      rw [fdiv_two_eq_ediv]
      simp
    rw [if_neg (by rw [h2]; simp)]
    rw [h2]
    have h3 : ((3 : ℤ) - (List.length [(5 : ℚ)] : ℤ) - 1).toNat = 1 := by simp
    rw [h3]
    norm_num [randn, List.range_succ]
  · norm_num

/-- C3 (amended): with `len(signal) < target_length` and
`needed = target_length - len(signal)`, both silence-padding
implementations return `target_length` samples with the original signal
verbatim starting at index `needed // 2`; in
`AudioAugmentor.extend_to_target_length` (method `pad_silence`) all
remaining samples are exactly zero, while in
`extend_audio_method4_silence_padding` the remaining samples are the
Gaussian noise draws (standard deviation 0.001), not exact zeros. -/
theorem C3_silence_pad :
    (∀ (A : AudioAugmentor) (st : List ℚ → ℚ → List ℚ) (audio : List ℚ),
      (audio.length : ℤ) < A.target_length →
      ∃ r : List ℚ, A.extend_to_target_length st audio "pad_silence" = .ok r ∧
        (r.length : ℤ) = A.target_length ∧
        (∀ i : ℕ, i < audio.length →
          r[(Int.fdiv (A.target_length - audio.length) 2).toNat + i]? = audio[i]?) ∧
        (∀ j : ℕ, j < r.length →
          (j < (Int.fdiv (A.target_length - audio.length) 2).toNat ∨
            (Int.fdiv (A.target_length - audio.length) 2).toNat + audio.length ≤ j) →
          r[j]? = some 0)) ∧
    (∀ (g1 g2 : ℕ → ℚ) (audio : List ℚ) (sr : ℤ) (td : ℚ),
      (audio.length : ℤ) < pyInt (td * sr) →
      ∃ r : List ℚ, extend_audio_method4_silence_padding g1 g2 audio sr td = .ok r ∧
        (r.length : ℤ) = pyInt (td * sr) ∧
        (∀ i : ℕ, i < audio.length →
          r[(Int.fdiv (pyInt (td * sr) - audio.length) 2).toNat + i]? = audio[i]?)) := by
  constructor
  · intro A st audio hlt
    refine ⟨_, extend_of_lt_pad A st audio hlt, ?_, ?_, ?_⟩
    · simp only [List.length_append, zeros_length]
      rw [fdiv_two_eq_ediv]
      push_cast
      omega
    · intro i hi
      have h := pad_append_getElem?_mid
        (zeros (Int.fdiv (A.target_length - (audio.length : ℤ)) 2).toNat) audio
        (zeros ((A.target_length - (audio.length : ℤ)) -
          Int.fdiv (A.target_length - (audio.length : ℤ)) 2).toNat) i hi
      rw [zeros_length] at h
      rw [List.append_assoc]
      exact h
    · intro j hj hout
      simp only [List.length_append, zeros_length] at hj
      rw [List.append_assoc]
      exact pad_append_getElem?_zeros _ _ audio j (by omega) hout
  · intro g1 g2 audio sr td hlt
    have hcond : ¬(Int.fdiv (pyInt (td * sr) - (audio.length : ℤ)) 2 < 0 ∨
        pyInt (td * sr) - (audio.length : ℤ) -
          Int.fdiv (pyInt (td * sr) - (audio.length : ℤ)) 2 < 0) := by
      rw [fdiv_two_eq_ediv]
      omega
    have heq : extend_audio_method4_silence_padding g1 g2 audio sr td =
        .ok (randn g1 (1/1000) (Int.fdiv (pyInt (td * sr) - (audio.length : ℤ)) 2).toNat ++
          audio ++
          randn g2 (1/1000) ((pyInt (td * sr) - (audio.length : ℤ)) -
            Int.fdiv (pyInt (td * sr) - (audio.length : ℤ)) 2).toNat) := by
      simp only [extend_audio_method4_silence_padding]
      rw [if_neg hcond]
    refine ⟨_, heq, ?_, ?_⟩
    · simp only [List.length_append, randn_length]
      rw [fdiv_two_eq_ediv]
      push_cast
      omega
    · intro i hi
      have h := pad_append_getElem?_mid
        (randn g1 (1/1000) (Int.fdiv (pyInt (td * sr) - (audio.length : ℤ)) 2).toNat) audio
        (randn g2 (1/1000) ((pyInt (td * sr) - (audio.length : ℤ)) -
          Int.fdiv (pyInt (td * sr) - (audio.length : ℤ)) 2).toNat) i hi
      rw [randn_length] at h
      rw [List.append_assoc]
      exact h

/-- Witness for C3: target length 5, signal `[7, 8]`, so `needed = 3`,
`before = 1`; the signal sits at indexes 1 and 2. -/
theorem C3_silence_pad_witness :
    ∃ r : List ℚ,
      AudioAugmentor.extend_to_target_length ⟨5, 1⟩ (fun xs _ => xs) [7, 8] "pad_silence" =
        .ok r ∧ (r.length : ℤ) = AudioAugmentor.target_length ⟨5, 1⟩ ∧
      r[(Int.fdiv (AudioAugmentor.target_length ⟨5, 1⟩ - 2) 2).toNat + 0]? = some 7 := by
  obtain ⟨r, h1, h2, h3, h4⟩ := C3_silence_pad.1 ⟨5, 1⟩ (fun xs _ => xs) [7, 8]
    (by norm_num [AudioAugmentor.target_length, pyInt])
  refine ⟨r, h1, h2, ?_⟩
  have := h3 0 (by norm_num)
  simpa using this

/-- C5 counterexample: the crossfade loop of `extend_audio_method1_repeat`
also multiplies the `fadeLength` samples *before* each seam by a fade-out
ramp.  With `seamPeriod = 3`, `fadeLength = 2`, `numRepeats = 2` on a
buffer of six ones, the sample at index 2 — before the first seam at 3 and
outside every claimed seam window `[k*3, k*3+2)` — becomes 0, contradicting
the claim that such samples are left unchanged. -/
theorem C5_fadeout_cex :
    (crossfadeInOut 3 2 2 [1, 1, 1, 1, 1, 1])[2]? = some 0 ∧
    ([1, 1, 1, 1, 1, 1] : List ℚ)[2]? = some 1 := by
  constructor
  · have hr : List.range' 1 ((2 : ℤ) - 1).toNat = [1] := by decide
    have hlin0 : linspace 1 0 2 = [1, 0] := by
      norm_num [linspace, List.range_succ]
    have hlin1 : linspace 0 1 2 = [0, 1] := by
      norm_num [linspace, List.range_succ]
    simp only [crossfadeInOut, hr, List.foldl_cons, List.foldl_nil, crossfadeInOutStep]
    norm_num [hlin0, hlin1, mulSlice, idxMap, List.getD]
  · rfl

/-- C5 (amended): both crossfade loops preserve the buffer length; the
fade-in-only loop (`extend_audio_method3_comprehensive`,
`augment_audio`) leaves every sample outside the seam windows
`[k*seamPeriod, k*seamPeriod + fadeLength)` (for `1 ≤ k < numRepeats`
with `k*seamPeriod + fadeLength < len(buffer)`) unchanged, including the
whole segment before the first seam, and multiplies the samples of an
active seam window by the linear 0 to 1 ramp (when the windows are
disjoint, `fadeLength ≤ seamPeriod`); the loop of
`extend_audio_method1_repeat` additionally touches the `fadeLength`
samples before each active seam, so only samples outside the widened
windows `[k*seamPeriod - fadeLength, k*seamPeriod + fadeLength)` are
guaranteed unchanged there. -/
theorem C5_crossfade_windows (L F : ℕ) (R : ℤ) (buf : List ℚ) :
    ((crossfadeIn L F R buf).length = buf.length ∧
      (crossfadeInOut L F R buf).length = buf.length) ∧
    (∀ j : ℕ, (∀ k : ℕ, 1 ≤ k → (k : ℤ) < R → ¬(k * L ≤ j ∧ j < k * L + F)) →
      (crossfadeIn L F R buf)[j]? = buf[j]?) ∧
    (∀ j : ℕ, (∀ k : ℕ, 1 ≤ k → (k : ℤ) < R → ¬(k * L ≤ j + F ∧ j < k * L + F)) →
      (crossfadeInOut L F R buf)[j]? = buf[j]?) ∧
    (F ≤ L → ∀ k : ℕ, 1 ≤ k → (k : ℤ) < R → k * L + F < buf.length →
      ∀ i : ℕ, i < F →
      (crossfadeIn L F R buf)[k * L + i]? =
        (buf[k * L + i]?).map (fun x => x * (linspace 0 1 F).getD i 1)) := by
  refine ⟨⟨crossfadeIn_length L F R buf, crossfadeInOut_length L F R buf⟩,
    fun j h => crossfadeIn_getElem?_outside L F R buf j h,
    fun j h => crossfadeInOut_getElem?_outside L F R buf j h,
    fun hFL k hk1 hkR hlen i hi => ?_⟩
  have h := crossfadeIn_getElem?_inside L F R buf k (k * L + i) hFL hk1 hkR
    ⟨by omega, by omega⟩ hlen
  simpa [Nat.add_sub_cancel_left] using h

/-- Witness for C5 with `seamPeriod = 2`, `fadeLength = 1`,
`numRepeats = 3` on a buffer of six ones: the sample at index 1 (outside
all seam windows) is unchanged, while the seam sample at index 2 is
multiplied by the ramp value 0. -/
theorem C5_crossfade_windows_witness :
    (crossfadeIn 2 1 3 [1, 1, 1, 1, 1, 1])[1]? = some 1 ∧
    (crossfadeIn 2 1 3 [1, 1, 1, 1, 1, 1])[2]? = some 0 := by
  have h := C5_crossfade_windows 2 1 3 [1, 1, 1, 1, 1, 1]
  constructor
  · have h2 := h.2.1 1 (by intro k hk1 hk3; omega)
    rw [h2]
    rfl
  · have h4 := h.2.2.2 (by norm_num) 1 (by norm_num) (by norm_num) (by simp) 0 (by norm_num)
    have hidx : (1 * 2 + 0 : ℕ) = 2 := by norm_num
    rw [hidx] at h4
    rw [h4]
    have hlin : linspace 0 1 1 = [0] := by
      norm_num [linspace, List.range_succ]
    norm_num [hlin, List.getD]

theorem tile_take_all (xs : List ℚ) (n : ℕ) : (tile xs n).take (n * xs.length) = tile xs n := by
  rw [← tile_length]
  exact List.take_length _

/-- C7: with `target_length = k * len(audio)` exactly (`k ≥ 1`), the
`repeat` strategy of `extend_to_target_length` returns exactly `k`
concatenated copies of the input (it applies no crossfade at all), and
`extend_audio_method1_repeat` agrees with the `k`-fold concatenation at
every index outside the crossfade-touched regions
`[q*L - F, q*L + F)` around the seams; the `k`-fold tiling itself is
`audio[j % L]` at every index `j < k*L`. -/
theorem C7_repeat_tiling (audio : List ℚ) (k L : ℕ) (hL : audio.length = L)
    (hL1 : 1 ≤ L) (hk1 : 1 ≤ k) (td : ℚ) (sr : ℤ)
    (ht : pyInt (td * sr) = ((k * L : ℕ) : ℤ)) (st : List ℚ → ℚ → List ℚ) :
    (AudioAugmentor.extend_to_target_length ⟨td, sr⟩ st audio "repeat" =
      .ok (tile audio k)) ∧
    (∀ j : ℕ, j < k * L →
      (∀ q : ℕ, 1 ≤ q → q < k →
        ¬(q * L ≤ j + (pyInt ((1/20) * (sr : ℚ))).toNat ∧
          j < q * L + (pyInt ((1/20) * (sr : ℚ))).toNat)) →
      (extend_audio_method1_repeat audio sr td)[j]? = (tile audio k)[j]?) ∧
    (∀ j : ℕ, j < k * L → (tile audio k)[j]? = audio[j % L]?) := by
  have hA : AudioAugmentor.target_length ⟨td, sr⟩ = ((k * L : ℕ) : ℤ) := ht
  have hne : audio ≠ [] := by
    intro h
    rw [h] at hL
    simp at hL
    omega
  have hceil2 : (⌈((((k * L : ℕ) : ℤ)) : ℚ) / ((L : ℕ) : ℚ)⌉ : ℤ) = (k : ℤ) := by
    push_cast
    rw [mul_div_assoc, div_self (by positivity), mul_one]
    exact Int.ceil_intCast (k : ℤ)
  refine ⟨?_, ?_, ?_⟩
  · by_cases hk : k = 1
    · subst hk
      rw [extend_of_ge _ _ _ _ (by rw [hA, hL]; simp)]
      have hpt : pyTake audio ((1 * L : ℕ) : ℤ) = audio := by
        rw [pyTake_of_nonneg (by positivity), Int.toNat_natCast, one_mul, ← hL,
          List.take_length]
      rw [hA, hpt]
      simp [tile]
    · have hk2 : 2 ≤ k := by omega
      have hNat : L < k * L := by
        calc L < 2 * L := by omega
        _ ≤ k * L := Nat.mul_le_mul_right L hk2
      have hlt : (audio.length : ℤ) < AudioAugmentor.target_length ⟨td, sr⟩ := by
        rw [hA, hL]
        exact_mod_cast hNat
      rw [extend_of_lt_repeat _ _ _ hlt, hA]
      have hceil : (⌈((((k * L : ℕ) : ℤ)) : ℚ) / (((audio.length : ℤ)) : ℚ)⌉ : ℤ) =
          (k : ℤ) := by
        rw [hL]
        push_cast
        rw [mul_div_assoc, div_self (by positivity), mul_one]
        exact Int.ceil_intCast (k : ℤ)
      rw [hceil, Int.toNat_natCast, pyTake_of_nonneg (by positivity), Int.toNat_natCast,
        ← hL, tile_take_all]
  · intro j hj hq
    simp only [extend_audio_method1_repeat, ht, hL]
    rw [hceil2, Int.toNat_natCast, pyTake_of_nonneg (by positivity), Int.toNat_natCast,
      List.getElem?_take, if_pos hj]
    apply crossfadeInOut_getElem?_outside
    intro q h1 h2
    exact hq q h1 (by exact_mod_cast h2)
  · intro j hj
    have h := tile_getElem? audio hne k j (by rw [hL]; exact hj)
    rw [hL] at h
    exact h

/-- Witness for C7: `audio = [1, 2, 3]`, `k = 2`, `sampleRate = 40`,
`target_duration = 3/20` (so `target_length = 6 = 2 * 3` and
`fadeLength = 2`); index 0 is outside the crossfade regions. -/
theorem C7_repeat_tiling_witness :
    AudioAugmentor.extend_to_target_length ⟨3/20, 40⟩ (fun xs _ => xs) [1, 2, 3] "repeat" =
      .ok (tile [1, 2, 3] 2) ∧
    (extend_audio_method1_repeat [1, 2, 3] 40 (3/20))[0]? = some 1 := by
  have ht : pyInt ((3/20 : ℚ) * ((40 : ℤ) : ℚ)) = (((2 * 3 : ℕ)) : ℤ) := by
    norm_num [pyInt]
  have h := C7_repeat_tiling [1, 2, 3] 2 3 (by simp) (by norm_num) (by norm_num)
    (3/20) 40 ht (fun xs _ => xs)
  refine ⟨h.1, ?_⟩
  have hF : (pyInt ((1/20 : ℚ) * ((40 : ℤ) : ℚ))).toNat = 2 := by
    have : pyInt ((1/20 : ℚ) * ((40 : ℤ) : ℚ)) = 2 := by norm_num [pyInt]
    rw [this]
    decide
  have hb := h.2.1 0 (by norm_num) (by
    intro q h1 h2
    rw [hF]
    omega)
  have hc := h.2.2 0 (by norm_num)
  rw [hb, hc]
  rfl

theorem okLength_ok (r : List ℚ) : okLength (.ok r) = some r.length := rfl

theorem ceil_count_mul_ge_nat {t : ℤ} (ht : 0 ≤ t) {c : ℕ} (hc : 0 < c) :
    t.toNat ≤ (⌈(t : ℚ) / (c : ℚ)⌉).toNat * c := by
  have h := ceil_count_mul_ge' ht (show (0 : ℤ) < ((c : ℕ) : ℤ) by exact_mod_cast hc)
  rw [Int.toNat_natCast] at h
  rw [show ((((c : ℕ) : ℤ)) : ℚ) = ((c : ℕ) : ℚ) from by push_cast; ring] at h
  exact h

/-- C1 counterexample: the code derives `target_length = int(target_duration
* sample_rate)` (truncation), not `round`, so with `target_duration = 5/2`
and `sample_rate = 3` the `repeat` strategy returns 7 samples although
`round(5/2 * 3) = 8` — the claim's length formula is wrong. -/
theorem C1_round_cex :
    AudioAugmentor.extend_to_target_length ⟨5/2, 3⟩ (fun xs _ => xs) [1] "repeat" =
      .ok (List.replicate 7 1) ∧
    ((7 : ℤ) ≠ round ((5/2 : ℚ) * ((3 : ℤ) : ℚ))) := by
  constructor
  · have ht : AudioAugmentor.target_length ⟨5/2, 3⟩ = 7 := by
      norm_num [AudioAugmentor.target_length, pyInt]
    rw [extend_of_lt_repeat _ _ _ (by rw [ht]; norm_num), ht]
    have hc : (⌈((7 : ℤ) : ℚ) / ((((List.length [(1 : ℚ)] : ℕ)) : ℤ) : ℚ)⌉ : ℤ) = 7 := by
      norm_num [ceil_to_floor]
    rw [hc]
    rfl
  · norm_num [round_eq]

/-- C1 (amended): for positive configuration and nonempty input, every
strategy of `extend_to_target_length` and the comprehensive pipeline of
`extend_audio_method3_comprehensive` return exactly
`target_length = int(target_duration * sample_rate)` samples (truncation,
as the code computes it, instead of the claim's `round`).  The external
time stretcher is assumed to meet its duration contract where the
strategy depends on it: its output is long enough for the `stretch`
strategy and nonempty for `stretch_and_repeat` and the pipeline. -/
theorem C1_length_invariant (td : ℚ) (sr : ℤ) (htd : 0 < td) (hsr : 0 < sr)
    (audio : List ℚ) (ha : audio ≠ []) (st : List ℚ → ℚ → List ℚ)
    (hstretch : AudioAugmentor.target_length ⟨td, sr⟩ ≤
      ((st audio (((audio.length : ℤ) : ℚ) /
        ((AudioAugmentor.target_length ⟨td, sr⟩ : ℤ) : ℚ))).length : ℤ))
    (hsar : st audio (7/10) ≠ [])
    (rate3 : ℚ) (h3 : st audio rate3 ≠ [])
    (g : ℕ → ℚ) (noise_level : ℚ) :
    okLength (AudioAugmentor.extend_to_target_length ⟨td, sr⟩ st audio "repeat") =
      some (AudioAugmentor.target_length ⟨td, sr⟩).toNat ∧
    okLength (AudioAugmentor.extend_to_target_length ⟨td, sr⟩ st audio "stretch") =
      some (AudioAugmentor.target_length ⟨td, sr⟩).toNat ∧
    okLength (AudioAugmentor.extend_to_target_length ⟨td, sr⟩ st audio "stretch_and_repeat") =
      some (AudioAugmentor.target_length ⟨td, sr⟩).toNat ∧
    okLength (AudioAugmentor.extend_to_target_length ⟨td, sr⟩ st audio "pad_silence") =
      some (AudioAugmentor.target_length ⟨td, sr⟩).toNat ∧
    (extend_audio_method3_comprehensive st rate3 g audio sr td noise_level).length =
      (pyInt (td * sr)).toNat := by
  have hsrq : (0 : ℚ) < ((sr : ℤ) : ℚ) := by exact_mod_cast hsr
  have ht0 : 0 ≤ AudioAugmentor.target_length ⟨td, sr⟩ :=
    pyInt_nonneg (mul_nonneg (le_of_lt htd) (le_of_lt hsrq))
  have hlen0 : 0 < audio.length := List.length_pos.mpr ha
  have hge_case : ∀ method : String,
      AudioAugmentor.target_length ⟨td, sr⟩ ≤ (audio.length : ℤ) →
      okLength (AudioAugmentor.extend_to_target_length ⟨td, sr⟩ st audio method) =
        some (AudioAugmentor.target_length ⟨td, sr⟩).toNat := by
    intro method hge
    rw [extend_of_ge _ _ _ _ hge, okLength_ok, length_pyTake_of_nonneg ht0]
    congr 1
    exact min_eq_left (Int.toNat_le.mpr hge)
  refine ⟨?_, ?_, ?_, ?_, ?_⟩
  · by_cases hge : AudioAugmentor.target_length ⟨td, sr⟩ ≤ (audio.length : ℤ)
    · exact hge_case _ hge
    · have hlt := not_le.mp hge
      rw [extend_of_lt_repeat _ _ _ hlt, okLength_ok, length_pyTake_of_nonneg ht0,
        tile_length]
      congr 1
      have h := ceil_count_mul_ge' ht0 (show (0 : ℤ) < ((audio.length : ℕ) : ℤ) by
        exact_mod_cast hlen0)
      rw [Int.toNat_natCast] at h
      omega
  · by_cases hge : AudioAugmentor.target_length ⟨td, sr⟩ ≤ (audio.length : ℤ)
    · exact hge_case _ hge
    · have hlt := not_le.mp hge
      rw [extend_of_lt_stretch _ _ _ hlt, okLength_ok, length_pyTake_of_nonneg ht0]
      congr 1
      exact min_eq_left (Int.toNat_le.mpr hstretch)
  · by_cases hge : AudioAugmentor.target_length ⟨td, sr⟩ ≤ (audio.length : ℤ)
    · exact hge_case _ hge
    · have hlt := not_le.mp hge
      have hls : 0 < (st audio (7/10)).length := List.length_pos.mpr hsar
      by_cases hs : ((st audio (7/10)).length : ℤ) < AudioAugmentor.target_length ⟨td, sr⟩
      · rw [extend_of_lt_sar_short _ _ _ hlt hs, okLength_ok,
          length_pyTake_of_nonneg ht0, tile_length]
        congr 1
        have h := ceil_count_mul_ge_nat ht0 hls
        omega
      · rw [extend_of_lt_sar_long _ _ _ hlt hs, okLength_ok, length_pyTake_of_nonneg ht0]
        congr 1
        exact min_eq_left (Int.toNat_le.mpr (not_lt.mp hs))
  · by_cases hge : AudioAugmentor.target_length ⟨td, sr⟩ ≤ (audio.length : ℤ)
    · exact hge_case _ hge
    · have hlt := not_le.mp hge
      rw [extend_of_lt_pad _ _ _ hlt, okLength_ok]
      congr 1
      simp only [List.length_append, zeros_length]
      rw [fdiv_two_eq_ediv]
      omega
  · have ht0' : 0 ≤ pyInt (td * ((sr : ℤ) : ℚ)) := ht0
    have hls : 0 < (st audio rate3).length := List.length_pos.mpr h3
    simp only [extend_audio_method3_comprehensive]
    rw [length_pyTake_of_nonneg ht0', simple_reverb_length, add_white_noise_length,
      crossfadeIn_length, length_pyTake_of_nonneg ht0', tile_length]
    have h := ceil_count_mul_ge_nat ht0' hls
    omega

/-- Witness for C1: `target_duration = 1`, `sample_rate = 4`,
`audio = [1, 2]`, and a stretcher returning four samples. -/
theorem C1_length_invariant_witness :
    okLength (AudioAugmentor.extend_to_target_length ⟨1, 4⟩ (fun _ _ => [0, 0, 0, 0])
      [1, 2] "repeat") = some (AudioAugmentor.target_length ⟨1, 4⟩).toNat ∧
    okLength (AudioAugmentor.extend_to_target_length ⟨1, 4⟩ (fun _ _ => [0, 0, 0, 0])
      [1, 2] "pad_silence") = some (AudioAugmentor.target_length ⟨1, 4⟩).toNat ∧
    (extend_audio_method3_comprehensive (fun _ _ => [0, 0, 0, 0]) (4/5) (fun _ => 0)
      [1, 2] 4 1 (1/200)).length = (pyInt ((1 : ℚ) * ((4 : ℤ) : ℚ))).toNat := by
  have h := C1_length_invariant 1 4 (by norm_num) (by norm_num) [1, 2] (by simp)
    (fun _ _ => [0, 0, 0, 0])
    (by norm_num [AudioAugmentor.target_length, pyInt]) (by simp) (4/5) (by simp)
    (fun _ => 0) (1/200)
  exact ⟨h.1, h.2.2.2.1, h.2.2.2.2⟩
